import Mathlib

set_option maxHeartbeats 1000000

/-!
Verification of the rust-ipld-dag-cbor sources (src/lib.rs and src/main.rs):
a shallow embedding of the dynamic IPLD value model, of the CBOR-level wire
values that the serde_cbor engine feeds to the visitor one event at a time,
of the visitor callbacks themselves, and of the Cid link type with its
encode and decode paths.  The underlying serde_cbor engine is out of scope
in the source (assumed correct); the wire is therefore modelled at the
event level, as the tree of already-parsed CBOR items the engine walks
while driving the visitor.
-/

/-- A CBOR wire item, as parsed by the underlying serde_cbor engine and
presented to the visitor: `uint n` is a major-type-0 unsigned integer,
`nint n` a major-type-1 negative integer denoting the value `-1 - n`,
`float bits` a float whose payload is carried as an opaque bit pattern,
`tagged t v` a major-type-6 tag `t` wrapping the item `v`.  Map entries
keep their wire order and may have arbitrary (not only text) keys, since
key decoding happens engine-side when the visitor asks for the next
entry. -/
inductive Cbor where
  | null
  | bool (b : Bool)
  | uint (n : Nat)
  | nint (n : Nat)
  | float (bits : Nat)
  | text (s : String)
  | bytes (b : List Nat)
  | array (xs : List Cbor)
  | map (entries : List (Cbor × Cbor))
  | tagged (tag : Nat) (payload : Cbor)

/-- The dynamic value model, transcribing the `Ipld` enum of src/lib.rs:
`Null`, `Bool`, `Integer(i128)`, `Float(f64)` (payload carried as an opaque
bit pattern, stored verbatim), `String`, `Bytes(Vec<u8>)`,
`List(Vec<Ipld>)`, `Map(BTreeMap<String, Ipld>)` (represented as a
key-sorted association list, the abstraction of a `BTreeMap`), and
`Link(Vec<u8>)`. -/
inductive Ipld where
  | null
  | bool (b : Bool)
  | integer (i : Int)
  | float (bits : Nat)
  | string (s : String)
  | bytes (b : List Nat)
  | list (xs : List Ipld)
  | map (entries : List (String × Ipld))
  | link (b : List Nat)

/-- The `Cid` newtype of src/lib.rs: a wrapper around a raw byte sequence
(`pub struct Cid(pub Vec<u8>)`), with structural equality. -/
structure Cid where
  bytes : List Nat
deriving DecidableEq

/-- Lexicographic comparison of two character lists by code point, the
order underlying Rust's `Ord` for `String` (byte-wise UTF-8 comparison
coincides with code-point-wise comparison). -/
def charListLt : List Char → List Char → Bool
  | [], [] => false
  | [], _ :: _ => true
  | _ :: _, [] => false
  | c :: cs, d :: ds =>
      if c.toNat < d.toNat then true
      else if d.toNat < c.toNat then false
      else charListLt cs ds

/-- The strict order on text keys used by the `BTreeMap<String, Ipld>` of
the source: Rust's natural `String` ordering. -/
def strLt (a b : String) : Bool := charListLt a.data b.data

/-- Insertion into a key-sorted association list: the abstraction of
`BTreeMap::insert`, which overwrites the value when the key is already
present (last write wins) and otherwise places the new entry at its sorted
position. -/
def btreeInsert (k : String) (v : Ipld) : List (String × Ipld) → List (String × Ipld)
  | [] => [(k, v)]
  | (k', v') :: rest =>
      if strLt k k' then (k, v) :: (k', v') :: rest
      else if k = k' then (k, v) :: rest
      else (k', v') :: btreeInsert k v rest

/-- Transcribes `IpldVisitor::visit_string` (src/lib.rs): text becomes
`Ipld::String`. -/
def visit_string (value : String) : Except String Ipld := .ok (.string value)

/-- Transcribes `IpldVisitor::visit_str` (src/lib.rs): borrowed text is
copied to an owned string and routed through `visit_string`. -/
def visit_str (value : String) : Except String Ipld := visit_string value

/-- Transcribes `IpldVisitor::visit_byte_buf` (src/lib.rs): a byte string
becomes `Ipld::Bytes`. -/
def visit_byte_buf (v : List Nat) : Except String Ipld := .ok (.bytes v)

/-- Transcribes `IpldVisitor::visit_bytes` (src/lib.rs): borrowed bytes are
copied and routed through `visit_byte_buf`. -/
def visit_bytes (v : List Nat) : Except String Ipld := visit_byte_buf v

/-- Transcribes `IpldVisitor::visit_u64` (src/lib.rs): `Ipld::Integer(v.into())`,
the lossless widening of an unsigned 64-bit value into `i128`. -/
def visit_u64 (v : Nat) : Except String Ipld := .ok (.integer (Int.ofNat v))

/-- Transcribes `IpldVisitor::visit_i64` (src/lib.rs): `Ipld::Integer(v.into())`,
the lossless widening of a signed 64-bit value into `i128`. -/
def visit_i64 (v : Int) : Except String Ipld := .ok (.integer v)

/-- Transcribes `IpldVisitor::visit_i128` (src/lib.rs): `Ipld::Integer(v)`. -/
def visit_i128 (v : Int) : Except String Ipld := .ok (.integer v)

/-- Transcribes `IpldVisitor::visit_bool` (src/lib.rs). -/
def visit_bool (v : Bool) : Except String Ipld := .ok (.bool v)

/-- Transcribes `IpldVisitor::visit_unit` (src/lib.rs): `Ipld::Null`. -/
def visit_unit : Except String Ipld := .ok .null

/-- Transcribes `IpldVisitor::visit_none` (src/lib.rs): routed through
`visit_unit`. -/
def visit_none : Except String Ipld := visit_unit

/-- Transcribes `IpldVisitor::visit_f64` (src/lib.rs): the float payload is
stored verbatim in `Ipld::Float`. -/
def visit_f64 (v : Nat) : Except String Ipld := .ok (.float v)

/-- The engine-side error raised when a map key fails to decode as text. -/
def engineKeyError : String := "invalid type, string key expected"

/-- Models the engine (serde) behavior of `visitor.next_entry()` decoding a
map key as `String`: a text wire item succeeds, any other key shape is an
invalid-type decode error raised by the engine itself, not by the
dispatcher (spec section 4.2: keys MUST decode as text; any other key type
is a decode error surfaced by the underlying engine). -/
def decodeKey : Cbor → Except String String
  | .text s => .ok s
  | _ => .error engineKeyError

mutual
/-- The dispatcher entry point: `Ipld::deserialize` calls
`deserializer.deserialize_any(IpldVisitor)` (src/lib.rs), and the engine
routes each wire item to the matching visitor callback.  Major-type-1
integers are split engine-side between `visit_i64` (value fits `i64`) and
`visit_i128`; a tagged item makes the engine set the ambient current tag to
the tag of that item and fire `visit_newtype_struct`, whose body from
src/lib.rs is inlined here with the ambient tag equal to `t` (the
standalone `visit_newtype_struct` below transcribes the callback verbatim
and is proved to agree with this case). -/
def deserialize_any : Cbor → Except String Ipld
  | .null => visit_unit
  | .bool b => visit_bool b
  | .uint n => visit_u64 n
  | .nint n =>
      if n < 2 ^ 63 then visit_i64 (-1 - (n : Int)) else visit_i128 (-1 - (n : Int))
  | .float bits => visit_f64 bits
  | .text s => visit_str s
  | .bytes b => visit_bytes b
  | .array xs =>
      match seqLoop xs with
      | .ok vec => .ok (.list vec)
      | .error e => .error e
  | .map es =>
      match mapLoop es [] with
      | .ok values => .ok (.map values)
      | .error e => .error e
  | .tagged t v =>
      if t = 42 then
        match deserialize_any v with
        | .ok (.bytes link) => .ok (.link link)
        | _ => .error "bytes expected"
      else
        .error ("unexpected tag (" ++ toString t ++ ")")

/-- The element loop of `IpldVisitor::visit_seq` (src/lib.rs): decode each
nested element in wire order, pushing into the vector; the first failure
aborts the whole decode. -/
def seqLoop : List Cbor → Except String (List Ipld)
  | [] => .ok []
  | x :: xs =>
      match deserialize_any x with
      | .ok v =>
          match seqLoop xs with
          | .ok vs => .ok (v :: vs)
          | .error e => .error e
      | .error e => .error e

/-- The entry loop of `IpldVisitor::visit_map` (src/lib.rs): decode each
key (as text, engine-side) and value in wire order, inserting into the
`BTreeMap`; the first failure aborts the whole decode. -/
def mapLoop : List (Cbor × Cbor) → List (String × Ipld) → Except String (List (String × Ipld))
  | [], acc => .ok acc
  | (kw, vw) :: rest, acc =>
      match decodeKey kw with
      | .ok k =>
          match deserialize_any vw with
          | .ok v => mapLoop rest (btreeInsert k v acc)
          | .error e => .error e
      | .error e => .error e
end

/-- Transcribes `IpldVisitor::visit_newtype_struct` (src/lib.rs): match on
`current_cbor_tag()` (the ambient tag active when the callback fires,
passed here explicitly), the `Some(42)` arm rendered as the equality test
on the carried tag; on `Some(42)` the nested payload must
decode, via the same dispatcher, to `Ipld::Bytes`, which is rewrapped as
`Ipld::Link`, any other outcome of the nested decode (a non-bytes value or
an error) becoming the error "bytes expected"; on `Some(tag)` the error
"unexpected tag (tag)"; with no ambient tag the error "tag expected". -/
def visit_newtype_struct (tag : Option Nat) (payload : Cbor) : Except String Ipld :=
  match tag with
  | some t =>
      if t = 42 then
        match deserialize_any payload with
        | .ok (.bytes link) => .ok (.link link)
        | _ => .error "bytes expected"
      else
        .error ("unexpected tag (" ++ toString t ++ ")")
  | none => .error "tag expected"

/-- Transcribes `IpldVisitor::visit_seq` (src/lib.rs) as a whole: run the
element loop and wrap the vector in `Ipld::List`. -/
def visit_seq (xs : List Cbor) : Except String Ipld :=
  match seqLoop xs with
  | .ok vec => .ok (.list vec)
  | .error e => .error e

/-- Transcribes `IpldVisitor::visit_map` (src/lib.rs) as a whole: run the
entry loop starting from the empty `BTreeMap` and wrap it in `Ipld::Map`. -/
def visit_map (es : List (Cbor × Cbor)) : Except String Ipld :=
  match mapLoop es [] with
  | .ok values => .ok (.map values)
  | .error e => .error e

/-- Models the engine (serde_cbor) run of `Tagged::<ByteBuf>::deserialize`:
walk any major-type-6 tags (the innermost one becomes the ambient current
tag), then read a byte string, pairing it with the observed tag; a
non-byte-string payload is an invalid-type error raised engine-side by the
`ByteBuf` decode. -/
def taggedByteBuf : Cbor → Option Nat → Except String (Option Nat × List Nat)
  | .tagged t v, _ => taggedByteBuf v (some t)
  | .bytes b, tag => .ok (tag, b)
  | _, _ => .error "invalid type, byte string expected"

/-- Transcribes `Cid::serialize` (src/lib.rs): wrap the raw bytes as a
byte string and emit it under tag 42 (`CBOR_TAG_CID`) as one
tagged-byte-string unit, via `Tagged::new(Some(42), bytes)`. -/
def Cid.serialize (c : Cid) : Cbor := .tagged 42 (.bytes c.bytes)

/-- Transcribes `Cid::deserialize` of src/lib.rs: run
`Tagged::<ByteBuf>::deserialize`, then match on the observed tag —
`Some(42)` or `None` accept the payload bytes, any other tag is the error
"unexpected tag". -/
def Cid.deserialize (w : Cbor) : Except String Cid :=
  match taggedByteBuf w none with
  | .ok (some 42, b) => .ok ⟨b⟩
  | .ok (none, b) => .ok ⟨b⟩
  | .ok (some _, _) => .error "unexpected tag"
  | .error e => .error e

/-- Models the engine (serde_cbor) helper `Tagged::unwrap_if_tag`: return
the carried value when the observed tag equals the expected one or when no
tag was observed, and fail with an unexpected-tag error otherwise. -/
def unwrap_if_tag (expected : Nat) : Option Nat × List Nat → Except String (List Nat)
  | (some t, b) => if t = expected then .ok b else .error "unexpected tag"
  | (none, b) => .ok b

/-- Transcribes `Cid::deserialize` of src/main.rs: run
`Tagged::<ByteBuf>::deserialize`, then `unwrap_if_tag(42)`, then wrap the
bytes in `Cid`. -/
def cidDeserializeMain (w : Cbor) : Except String Cid :=
  match taggedByteBuf w none with
  | .ok tv =>
      match unwrap_if_tag 42 tv with
      | .ok b => .ok ⟨b⟩
      | .error e => .error e
  | .error e => .error e

mutual
/-- Modelled from the spec: the repository implements no serializer for the
dynamic `Ipld` value (only `Cid` and ordinary structs have encode paths),
so the encoding of a `Value` to the wire is modelled from spec sections 4.1,
6 and 8 — each primitive maps to its wire item, integers use the CBOR
unsigned or negative framing (failing outside the wire-representable range),
floats are left unmodelled (their wire mapping is the fuzzy case the spec
excludes from round-trips), lists and maps encode their parts in iteration
order with text keys, and a link encodes as tag 42 over a byte string
exactly like `Cid::serialize`. -/
def encode : Ipld → Option Cbor
  | .null => some .null
  | .bool b => some (.bool b)
  | .integer i =>
      if 0 ≤ i then
        if i < 2 ^ 64 then some (.uint i.toNat) else none
      else
        if -(2 ^ 64) ≤ i then some (.nint (-1 - i).toNat) else none
  | .float _ => none
  | .string s => some (.text s)
  | .bytes b => some (.bytes b)
  | .list xs =>
      match encodeList xs with
      | some ws => some (.array ws)
      | none => none
  | .map m =>
      match encodeEntries m with
      | some es => some (.map es)
      | none => none
  | .link b => some (.tagged 42 (.bytes b))

/-- Modelled from the spec: encoding of the elements of a `Value::List`,
in order. -/
def encodeList : List Ipld → Option (List Cbor)
  | [] => some []
  | x :: xs =>
      match encode x with
      | some w =>
          match encodeList xs with
          | some ws => some (w :: ws)
          | none => none
      | none => none

/-- Modelled from the spec: encoding of the entries of a `Value::Map`, in
iteration order, each key as a text item. -/
def encodeEntries : List (String × Ipld) → Option (List (Cbor × Cbor))
  | [] => some []
  | (k, v) :: rest =>
      match encode v with
      | some w =>
          match encodeEntries rest with
          | some ws => some ((.text k, w) :: ws)
          | none => none
      | none => none
end

/-- Strict sortedness of an association list by key: adjacent keys strictly
increase, which is the representation invariant of `BTreeMap` iteration. -/
def sortedEntries : List (String × Ipld) → Bool
  | [] => true
  | [_] => true
  | (k, _) :: (k', v') :: rest => strLt k k' && sortedEntries ((k', v') :: rest)

mutual
/-- Well-formedness of a value as produced by the Rust type: every map node,
being a `BTreeMap`, is strictly sorted by key. -/
def wellFormed : Ipld → Bool
  | .list xs => wellFormedList xs
  | .map m => sortedEntries m && wellFormedEntries m
  | _ => true

/-- Well-formedness of every element of a list node. -/
def wellFormedList : List Ipld → Bool
  | [] => true
  | x :: xs => wellFormed x && wellFormedList xs

/-- Well-formedness of every value of a map node. -/
def wellFormedEntries : List (String × Ipld) → Bool
  | [] => true
  | (_, v) :: rest => wellFormed v && wellFormedEntries rest
end

/-- Lookup in an association list (first match). On a key-sorted list this
is the lookup of the modelled `BTreeMap`. -/
def lookupAssoc (k : String) : List (String × Ipld) → Option Ipld
  | [] => none
  | (k', v) :: rest => if k = k' then some v else lookupAssoc k rest

/-- Specification device for last-write-wins: the wire entries of a map,
decoded in order into key/value pairs without any map insertion. -/
def decodedPairs : List (Cbor × Cbor) → Except String (List (String × Ipld))
  | [] => .ok []
  | (kw, vw) :: rest =>
      match decodeKey kw with
      | .ok k =>
          match deserialize_any vw with
          | .ok v =>
              match decodedPairs rest with
              | .ok ps => .ok ((k, v) :: ps)
              | .error e => .error e
          | .error e => .error e
      | .error e => .error e

/-- Proof device: the key `k` is below the head key of the list (trivially
true for the empty list). -/
def ltHead (k : String) : List (String × Ipld) → Bool
  | [] => true
  | (k', _) :: _ => strLt k k'

/-- Proof device: insert a list of decoded key/value pairs into an
accumulated map in order, exactly as the `visit_map` loop does. -/
def insertAll (acc : List (String × Ipld)) (ps : List (String × Ipld)) : List (String × Ipld) :=
  List.foldl (fun m p => btreeInsert p.1 p.2 m) acc ps

/-- Proof device: first-defined choice between two optional values. -/
def optFirst (a b : Option Ipld) : Option Ipld :=
  match a with
  | some v => some v
  | none => b

/-! Order lemmas for the key comparison. -/

theorem charListLt_irrefl : ∀ l : List Char, charListLt l l = false
  | [] => rfl
  | c :: cs => by
      unfold charListLt
      rw [if_neg (Nat.lt_irrefl _), if_neg (Nat.lt_irrefl _)]
      exact charListLt_irrefl cs

theorem charListLt_trans : ∀ a b c : List Char,
    charListLt a b = true → charListLt b c = true → charListLt a c = true := by
  intro a
  induction a with
  | nil =>
      intro b c h1 h2
      cases b with
      | nil => simp_all [charListLt]
      | cons y ys =>
          cases c with
          | nil => simp_all [charListLt]
          | cons z zs => simp [charListLt]
  | cons x xs ih =>
      intro b c h1 h2
      cases b with
      | nil => simp_all [charListLt]
      | cons y ys =>
          cases c with
          | nil => simp_all [charListLt]
          | cons z zs =>
              unfold charListLt at h1 h2 ⊢
              split_ifs at h1 h2 ⊢ <;> (simp_all; try omega)
              exact ih ys zs h1 h2

theorem charListLt_conn : ∀ a b : List Char,
    charListLt a b = false → charListLt b a = false → a = b := by
  intro a
  induction a with
  | nil =>
      intro b h1 h2
      cases b with
      | nil => rfl
      | cons y ys => simp_all [charListLt]
  | cons x xs ih =>
      intro b h1 h2
      cases b with
      | nil => simp_all [charListLt]
      | cons y ys =>
          unfold charListLt at h1 h2
          split_ifs at h1 h2 <;> simp_all
          have hxy : x = y := by
            have : x.toNat = y.toNat := by omega
            exact Char.ext (UInt32.ext this)
          exact ⟨hxy, ih ys h1 h2⟩

theorem strLt_irrefl (a : String) : strLt a a = false := charListLt_irrefl a.data

theorem strLt_trans {a b c : String} (h1 : strLt a b = true) (h2 : strLt b c = true) :
    strLt a c = true := charListLt_trans a.data b.data c.data h1 h2

theorem strLt_asymm {a b : String} (h : strLt a b = true) : strLt b a = false := by
  by_contra hc
  have h2 : strLt b a = true := by
    cases hab : strLt b a
    · exact absurd hab hc
    · rfl
  have := strLt_trans h h2
  rw [strLt_irrefl] at this
  exact Bool.false_ne_true this

theorem strLt_conn {a b : String} (h1 : strLt a b = false) (h2 : strLt b a = false) : a = b := by
  have hd : a.data = b.data := charListLt_conn a.data b.data h1 h2
  cases a
  cases b
  simp_all

theorem strLt_ne {a b : String} (h : strLt a b = true) : a ≠ b := by
  intro he
  subst he
  rw [strLt_irrefl] at h
  exact Bool.false_ne_true h

/-! Lemmas about the modelled BTreeMap insertion. -/

theorem lookupAssoc_btreeInsert (q k : String) (v : Ipld) : ∀ m : List (String × Ipld),
    lookupAssoc q (btreeInsert k v m) = if q = k then some v else lookupAssoc q m := by
  intro m
  induction m with
  | nil => simp [btreeInsert, lookupAssoc]
  | cons p rest ih =>
      obtain ⟨k', v'⟩ := p
      unfold btreeInsert
      by_cases hlt : strLt k k' = true
      · rw [if_pos hlt]
        simp [lookupAssoc]
      · rw [if_neg (by simp [hlt])]
        by_cases heq : k = k'
        · rw [if_pos heq]
          subst heq
          by_cases hq : q = k <;> simp [lookupAssoc, hq]
        · rw [if_neg heq]
          by_cases hq' : q = k'
          · have hqk : ¬q = k := fun he => heq (he.symm.trans hq')
            have hk'k : ¬k' = k := fun he => heq he.symm
            simp [lookupAssoc, hq', hqk, hk'k]
          · simp [lookupAssoc, hq', ih]

theorem btreeInsert_append (k : String) (v : Ipld) : ∀ m : List (String × Ipld),
    (∀ p ∈ m, strLt p.1 k = true) → btreeInsert k v m = m ++ [(k, v)] := by
  intro m
  induction m with
  | nil => simp [btreeInsert]
  | cons p rest ih =>
      intro h
      obtain ⟨k', v'⟩ := p
      have hk' : strLt k' k = true := h (k', v') (List.mem_cons_self _ _)
      have h1 : strLt k k' = false := strLt_asymm hk'
      have h2 : k ≠ k' := fun he => (strLt_ne hk') he.symm
      unfold btreeInsert
      rw [if_neg (by simp [h1]), if_neg h2, ih (fun p hp => h p (List.mem_cons_of_mem _ hp))]
      simp

theorem strLt_flip {a b : String} (h1 : ¬strLt a b = true) (h2 : ¬a = b) : strLt b a = true := by
  have hab : strLt a b = false := by
    cases hx : strLt a b
    · rfl
    · exact absurd hx h1
  cases hx : strLt b a
  · exact absurd (strLt_conn hab hx) h2
  · rfl

theorem ltHead_cons (k k' : String) (v' : Ipld) (rest : List (String × Ipld)) :
    ltHead k ((k', v') :: rest) = strLt k k' := rfl

theorem sortedEntries_cons (k : String) (v : Ipld) (m : List (String × Ipld)) :
    sortedEntries ((k, v) :: m) = (ltHead k m && sortedEntries m) := by
  cases m with
  | nil => simp [sortedEntries, ltHead]
  | cons p rest =>
      obtain ⟨k', v'⟩ := p
      simp [sortedEntries, ltHead]

theorem ltHead_btreeInsert (q k : String) (v : Ipld) (m : List (String × Ipld))
    (hqk : strLt q k = true) (hm : ltHead q m = true) :
    ltHead q (btreeInsert k v m) = true := by
  cases m with
  | nil => simpa [btreeInsert, ltHead] using hqk
  | cons p rest =>
      obtain ⟨k', v'⟩ := p
      unfold btreeInsert
      by_cases hlt : strLt k k' = true
      · rw [if_pos hlt]
        simpa [ltHead] using hqk
      · rw [if_neg (by simp [hlt])]
        by_cases heq : k = k'
        · rw [if_pos heq]
          simpa [ltHead] using hqk
        · rw [if_neg heq]
          simpa [ltHead] using hm

theorem sortedEntries_btreeInsert (k : String) (v : Ipld) : ∀ m : List (String × Ipld),
    sortedEntries m = true → sortedEntries (btreeInsert k v m) = true := by
  intro m
  induction m with
  | nil => intro _; simp [btreeInsert, sortedEntries]
  | cons p rest ih =>
      intro h
      obtain ⟨k', v'⟩ := p
      rw [sortedEntries_cons] at h
      have hhead : ltHead k' rest = true := by
        cases hx : ltHead k' rest
        · rw [hx] at h; simp at h
        · rfl
      have hrest : sortedEntries rest = true := by
        cases hx : sortedEntries rest
        · rw [hx] at h; simp at h
        · rfl
      unfold btreeInsert
      by_cases hlt : strLt k k' = true
      · rw [if_pos hlt]
        rw [sortedEntries_cons, sortedEntries_cons]
        simp [ltHead_cons, hlt, hhead, hrest]
      · rw [if_neg (by simp [hlt])]
        by_cases heq : k = k'
        · rw [if_pos heq]
          subst heq
          rw [sortedEntries_cons]
          simp [hhead, hrest]
        · rw [if_neg heq]
          have hk'k : strLt k' k = true := strLt_flip hlt heq
          rw [sortedEntries_cons]
          simp [ltHead_btreeInsert k' k v rest hk'k hhead, ih hrest]

theorem sortedEntries_insertAll : ∀ (ps acc : List (String × Ipld)),
    sortedEntries acc = true → sortedEntries (insertAll acc ps) = true := by
  intro ps
  induction ps with
  | nil => intro acc h; simpa [insertAll] using h
  | cons p rest ih =>
      intro acc h
      obtain ⟨k, v⟩ := p
      show sortedEntries (insertAll (btreeInsert k v acc) rest) = true
      exact ih _ (sortedEntries_btreeInsert k v acc h)

theorem lookupAssoc_append (q : String) : ∀ l1 l2 : List (String × Ipld),
    lookupAssoc q (l1 ++ l2) = optFirst (lookupAssoc q l1) (lookupAssoc q l2) := by
  intro l1
  induction l1 with
  | nil => intro l2; simp [lookupAssoc, optFirst]
  | cons p rest ih =>
      intro l2
      obtain ⟨k, v⟩ := p
      by_cases hq : q = k
      · simp [lookupAssoc, hq, optFirst]
      · simp [lookupAssoc, hq, ih]

theorem lookupAssoc_insertAll (q : String) : ∀ (ps acc : List (String × Ipld)),
    lookupAssoc q (insertAll acc ps) =
      optFirst (lookupAssoc q ps.reverse) (lookupAssoc q acc) := by
  intro ps
  induction ps with
  | nil => intro acc; simp [insertAll, lookupAssoc, optFirst]
  | cons p rest ih =>
      intro acc
      obtain ⟨k, v⟩ := p
      show lookupAssoc q (insertAll (btreeInsert k v acc) rest) = _
      rw [ih]
      simp only [List.reverse_cons, lookupAssoc_append, lookupAssoc_btreeInsert]
      by_cases hq : q = k <;>
        cases hrev : lookupAssoc q rest.reverse <;>
          simp [optFirst, lookupAssoc, hq, hrev]

theorem mapLoop_spec : ∀ (es : List (Cbor × Cbor)) (acc : List (String × Ipld)),
    mapLoop es acc =
      match decodedPairs es with
      | .ok ps => .ok (insertAll acc ps)
      | .error e => .error e := by
  intro es
  induction es with
  | nil => intro acc; simp [mapLoop, decodedPairs, insertAll]
  | cons p rest ih =>
      intro acc
      obtain ⟨kw, vw⟩ := p
      unfold mapLoop decodedPairs
      cases hk : decodeKey kw with
      | error e => simp
      | ok k =>
          cases hv : deserialize_any vw with
          | error e => simp
          | ok v =>
              have h2 := ih (btreeInsert k v acc)
              cases hr : decodedPairs rest with
              | error e =>
                  simp only [hr] at h2
                  simp [h2]
              | ok ps =>
                  simp only [hr] at h2
                  simp [h2, insertAll]

theorem sortedEntries_head_lt : ∀ (m : List (String × Ipld)) (k : String) (v : Ipld),
    sortedEntries ((k, v) :: m) = true → ∀ p ∈ m, strLt k p.1 = true := by
  intro m
  induction m with
  | nil => intro k v _ p hp; simp at hp
  | cons q rest ih =>
      intro k v h p hp
      obtain ⟨k', v'⟩ := q
      have hk : strLt k k' = true := by
        have := h
        unfold sortedEntries at this
        exact (Bool.and_eq_true _ _ |>.mp this).1
      have hs : sortedEntries ((k', v') :: rest) = true := by
        have := h
        unfold sortedEntries at this
        exact (Bool.and_eq_true _ _ |>.mp this).2
      rcases List.mem_cons.mp hp with he | hm
      · subst he; exact hk
      · exact strLt_trans hk (ih k' v' hs p hm)

theorem insertAll_sorted_append : ∀ (m acc : List (String × Ipld)),
    (∀ p ∈ acc, ∀ q ∈ m, strLt p.1 q.1 = true) → sortedEntries m = true →
    insertAll acc m = acc ++ m := by
  intro m
  induction m with
  | nil => intro acc _ _; simp [insertAll]
  | cons q rest ih =>
      intro acc hacc hs
      obtain ⟨k, v⟩ := q
      have hins : btreeInsert k v acc = acc ++ [(k, v)] :=
        btreeInsert_append k v acc
          (fun p hp => hacc p hp (k, v) (List.mem_cons_self _ _))
      have hrest : sortedEntries rest = true := by
        rw [sortedEntries_cons] at hs
        exact (Bool.and_eq_true _ _ |>.mp hs).2
      have hacc' : ∀ p ∈ acc ++ [(k, v)], ∀ q ∈ rest, strLt p.1 q.1 = true := by
        intro p hp q hq
        rcases List.mem_append.mp hp with hpa | hpk
        · exact hacc p hpa q (List.mem_cons_of_mem _ hq)
        · have : p = (k, v) := by simpa using hpk
          subst this
          exact sortedEntries_head_lt rest k v hs q hq
      show insertAll (btreeInsert k v acc) rest = acc ++ (k, v) :: rest
      rw [hins, ih (acc ++ [(k, v)]) hacc' hrest]
      simp

theorem insertAll_sorted (m : List (String × Ipld)) (hs : sortedEntries m = true) :
    insertAll [] m = m := by
  have := insertAll_sorted_append m [] (by intro p hp; simp at hp) hs
  simpa using this

mutual
theorem decode_encode : ∀ (v : Ipld), wellFormed v = true → ∀ (w : Cbor), encode v = some w →
    deserialize_any w = .ok v
  | .null, _, w, h => by
      simp [encode] at h
      subst h
      rfl
  | .bool b, _, w, h => by
      simp [encode] at h
      subst h
      rfl
  | .integer i, _, w, h => by
      unfold encode at h
      split_ifs at h with h1 h2 h3
      all_goals simp at h
      all_goals subst h
      · simp only [deserialize_any, visit_u64, Int.ofNat_eq_coe, Except.ok.injEq,
          Ipld.integer.injEq]
        omega
      · simp only [deserialize_any]
        split <;>
          simp only [visit_i64, visit_i128, Except.ok.injEq, Ipld.integer.injEq] <;>
            omega
  | .float bits, _, w, h => by simp [encode] at h
  | .string s, _, w, h => by
      simp [encode] at h
      subst h
      rfl
  | .bytes b, _, w, h => by
      simp [encode] at h
      subst h
      rfl
  | .list xs, hwf, w, h => by
      unfold encode at h
      cases he : encodeList xs with
      | none => rw [he] at h; simp at h
      | some ws =>
          rw [he] at h
          simp at h
          subst h
          have hl := decode_encodeList xs (by simpa [wellFormed] using hwf) ws he
          simp [deserialize_any, hl]
  | .map m, hwf, w, h => by
      unfold encode at h
      cases he : encodeEntries m with
      | none => rw [he] at h; simp at h
      | some es =>
          rw [he] at h
          simp at h
          subst h
          have hsw : sortedEntries m = true ∧ wellFormedEntries m = true := by
            have h0 := hwf
            unfold wellFormed at h0
            simpa [Bool.and_eq_true] using h0
          have hd := decode_encodeEntries m hsw.2 es he
          simp [deserialize_any, mapLoop_spec, hd, insertAll_sorted m hsw.1]
  | .link b, _, w, h => by
      simp [encode] at h
      subst h
      rfl

theorem decode_encodeList : ∀ (xs : List Ipld), wellFormedList xs = true → ∀ (ws : List Cbor),
    encodeList xs = some ws → seqLoop ws = .ok xs
  | [], _, ws, h => by
      simp [encodeList] at h
      subst h
      rfl
  | x :: xs, hwf, ws, h => by
      unfold encodeList at h
      cases hx : encode x with
      | none => rw [hx] at h; simp at h
      | some w =>
          rw [hx] at h
          cases hxs : encodeList xs with
          | none => rw [hxs] at h; simp at h
          | some ws' =>
              rw [hxs] at h
              simp at h
              subst h
              have h1 : wellFormed x = true ∧ wellFormedList xs = true := by
                have h0 := hwf
                unfold wellFormedList at h0
                simpa [Bool.and_eq_true] using h0
              have hd := decode_encode x h1.1 w hx
              have hds := decode_encodeList xs h1.2 ws' hxs
              simp [seqLoop, hd, hds]

theorem decode_encodeEntries : ∀ (m : List (String × Ipld)), wellFormedEntries m = true →
    ∀ (es : List (Cbor × Cbor)), encodeEntries m = some es → decodedPairs es = .ok m
  | [], _, es, h => by
      simp [encodeEntries] at h
      subst h
      rfl
  | (k, v) :: rest, hwf, es, h => by
      unfold encodeEntries at h
      cases hv : encode v with
      | none => rw [hv] at h; simp at h
      | some w =>
          rw [hv] at h
          cases hr : encodeEntries rest with
          | none => rw [hr] at h; simp at h
          | some ws =>
              rw [hr] at h
              simp at h
              subst h
              have h1 : wellFormed v = true ∧ wellFormedEntries rest = true := by
                have h0 := hwf
                unfold wellFormedEntries at h0
                simpa [Bool.and_eq_true] using h0
              have hd := decode_encode v h1.1 w hv
              have hds := decode_encodeEntries rest h1.2 ws hr
              simp [decodedPairs, decodeKey, hd, hds]
end

theorem deserialize_any_tagged (t : Nat) (v : Cbor) :
    deserialize_any (.tagged t v) = visit_newtype_struct (some t) v := by
  unfold deserialize_any visit_newtype_struct
  rfl

theorem decodeKey_error (kw : Cbor) (e : String) (h : decodeKey kw = .error e) :
    e = engineKeyError := by
  cases kw <;> simp [decodeKey] at h <;> exact h.symm

mutual
theorem deserialize_any_error_set : ∀ (w : Cbor) (e : String), deserialize_any w = .error e →
    e = "bytes expected" ∨ (∃ t : Nat, e = "unexpected tag (" ++ toString t ++ ")") ∨
      e = engineKeyError
  | .null, e, h => by simp [deserialize_any, visit_unit] at h
  | .bool b, e, h => by simp [deserialize_any, visit_bool] at h
  | .uint n, e, h => by simp [deserialize_any, visit_u64] at h
  | .nint n, e, h => by
      unfold deserialize_any at h
      split at h <;> simp [visit_i64, visit_i128] at h
  | .float bits, e, h => by simp [deserialize_any, visit_f64] at h
  | .text s, e, h => by simp [deserialize_any, visit_str, visit_string] at h
  | .bytes b, e, h => by simp [deserialize_any, visit_bytes, visit_byte_buf] at h
  | .array xs, e, h => by
      unfold deserialize_any at h
      cases hs : seqLoop xs with
      | ok v => rw [hs] at h; simp at h
      | error e2 =>
          rw [hs] at h
          simp at h
          subst h
          exact seqLoop_error_set xs e2 hs
  | .map es, e, h => by
      unfold deserialize_any at h
      cases hs : mapLoop es [] with
      | ok v => rw [hs] at h; simp at h
      | error e2 =>
          rw [hs] at h
          simp at h
          subst h
          exact mapLoop_error_set es [] e2 hs
  | .tagged t v, e, h => by
      unfold deserialize_any at h
      by_cases ht : t = 42
      · rw [if_pos ht] at h
        split at h
        · simp at h
        · simp at h
          exact Or.inl h.symm
      · rw [if_neg ht] at h
        simp at h
        exact Or.inr (Or.inl ⟨t, h.symm⟩)

theorem seqLoop_error_set : ∀ (xs : List Cbor) (e : String), seqLoop xs = .error e →
    e = "bytes expected" ∨ (∃ t : Nat, e = "unexpected tag (" ++ toString t ++ ")") ∨
      e = engineKeyError
  | [], e, h => by simp [seqLoop] at h
  | x :: xs, e, h => by
      unfold seqLoop at h
      cases hx : deserialize_any x with
      | ok v =>
          rw [hx] at h
          cases hxs : seqLoop xs with
          | ok vs => rw [hxs] at h; simp at h
          | error e2 =>
              rw [hxs] at h
              simp at h
              subst h
              exact seqLoop_error_set xs e2 hxs
      | error e2 =>
          rw [hx] at h
          simp at h
          subst h
          exact deserialize_any_error_set x e2 hx

theorem mapLoop_error_set : ∀ (es : List (Cbor × Cbor)) (acc : List (String × Ipld)) (e : String),
    mapLoop es acc = .error e →
    e = "bytes expected" ∨ (∃ t : Nat, e = "unexpected tag (" ++ toString t ++ ")") ∨
      e = engineKeyError
  | [], acc, e, h => by simp [mapLoop] at h
  | (kw, vw) :: rest, acc, e, h => by
      unfold mapLoop at h
      cases hk : decodeKey kw with
      | ok k =>
          rw [hk] at h
          cases hv : deserialize_any vw with
          | ok v =>
              rw [hv] at h
              exact mapLoop_error_set rest (btreeInsert k v acc) e h
          | error e2 =>
              rw [hv] at h
              simp at h
              subst h
              exact deserialize_any_error_set vw e2 hv
      | error e2 =>
          rw [hk] at h
          simp at h
          subst h
          exact Or.inr (Or.inr (decodeKey_error kw e2 hk))
end

theorem visit_newtype_42_swallows (payload : Cbor) (e : String)
    (h : deserialize_any payload = .error e) :
    visit_newtype_struct (some 42) payload = .error "bytes expected" := by
  unfold visit_newtype_struct
  rw [h]
  rfl

/-! Claim theorems. -/

/-- C1: for every invocation of the dynamic value decoder's tagged/newtype
callback, if the ambient current tag is 42 and the nested payload decodes to a
Bytes value the result is a Link holding those bytes; if the tag is 42 and the
nested decode yields anything other than Bytes the decode fails with
"bytes expected"; if a tag other than 42 is active the decode fails with
"unexpected tag (N)" carrying that numeric tag; and if no tag is active the
decode fails with "tag expected". -/
theorem c1_visit_newtype_tag_dispatch (tag : Option Nat) (payload : Cbor) :
    (∀ b, tag = some 42 → deserialize_any payload = .ok (.bytes b) →
      visit_newtype_struct tag payload = .ok (.link b)) ∧
    (tag = some 42 → (∀ b, ¬deserialize_any payload = .ok (.bytes b)) →
      visit_newtype_struct tag payload = .error "bytes expected") ∧
    (∀ t, tag = some t → ¬t = 42 →
      visit_newtype_struct tag payload = .error ("unexpected tag (" ++ toString t ++ ")")) ∧
    (tag = none → visit_newtype_struct tag payload = .error "tag expected") := by
  refine ⟨?_, ?_, ?_, ?_⟩
  · intro b ht hd
    subst ht
    unfold visit_newtype_struct
    rw [hd]
    rfl
  · intro ht hb
    subst ht
    unfold visit_newtype_struct
    cases hd : deserialize_any payload with
    | ok v =>
        cases v
        case bytes b => exact absurd hd (hb b)
        all_goals rfl
    | error e => rfl
  · intro t ht hne
    subst ht
    simp [visit_newtype_struct, hne]
  · intro ht
    subst ht
    rfl

/-- C1 witness: the four branches of the callback at concrete inputs. -/
theorem c1_visit_newtype_tag_dispatch_witness :
    visit_newtype_struct (some 42) (.bytes [1, 2]) = .ok (.link [1, 2]) ∧
    visit_newtype_struct (some 42) .null = .error "bytes expected" ∧
    visit_newtype_struct (some 7) .null = .error "unexpected tag (7)" ∧
    visit_newtype_struct none .null = .error "tag expected" := by
  refine ⟨?_, ?_, ?_, ?_⟩
  · exact (c1_visit_newtype_tag_dispatch (some 42) (.bytes [1, 2])).1 [1, 2] rfl rfl
  · exact (c1_visit_newtype_tag_dispatch (some 42) .null).2.1 rfl
      (by intro b h; simp [deserialize_any, visit_unit] at h)
  · exact (c1_visit_newtype_tag_dispatch (some 7) .null).2.2.1 7 rfl (by decide)
  · exact (c1_visit_newtype_tag_dispatch none .null).2.2.2 rfl

theorem cid_deserialize_some_ne (w : Cbor) (n : Nat) (b : List Nat)
    (h : taggedByteBuf w none = .ok (some n, b)) (hn : ¬n = 42) :
    Cid.deserialize w = .error "unexpected tag" := by
  unfold Cid.deserialize
  rw [h]
  split <;> simp_all

/-- C2: for every decode of a byte sequence as the link type, if the observed
tag is exactly 42 or no tag is present the decode succeeds and the resulting
Cid holds exactly the payload bytes; if any other tag is present the decode
fails with the "unexpected tag" error. -/
theorem c2_cid_decode_tag_policy (w : Cbor) (t : Option Nat) (b : List Nat)
    (h : taggedByteBuf w none = .ok (t, b)) :
    ((t = some 42 ∨ t = none) → Cid.deserialize w = .ok ⟨b⟩) ∧
    (∀ n, t = some n → ¬n = 42 → Cid.deserialize w = .error "unexpected tag") := by
  constructor
  · intro ht
    unfold Cid.deserialize
    rcases ht with h42 | hno
    · subst h42
      rw [h]
    · subst hno
      rw [h]
  · intro n hn hne
    subst hn
    exact cid_deserialize_some_ne w n b h hne

/-- C2 witness: tagged-42, untagged and tag-99 byte strings. -/
theorem c2_cid_decode_tag_policy_witness :
    Cid.deserialize (.tagged 42 (.bytes [7, 8, 9])) = .ok ⟨[7, 8, 9]⟩ ∧
    Cid.deserialize (.bytes [7, 8, 9]) = .ok ⟨[7, 8, 9]⟩ ∧
    Cid.deserialize (.tagged 99 (.bytes [7, 8, 9])) = .error "unexpected tag" := by
  refine ⟨?_, ?_, ?_⟩
  · exact (c2_cid_decode_tag_policy (.tagged 42 (.bytes [7, 8, 9])) (some 42)
      [7, 8, 9] rfl).1 (Or.inl rfl)
  · exact (c2_cid_decode_tag_policy (.bytes [7, 8, 9]) none [7, 8, 9] rfl).1 (Or.inr rfl)
  · exact (c2_cid_decode_tag_policy (.tagged 99 (.bytes [7, 8, 9])) (some 99)
      [7, 8, 9] rfl).2 99 rfl (by decide)

/-- C4: decoding tag-42-wrapped bytes into the dynamic value model yields the
Link variant holding those bytes and never the Bytes variant, and decoding
tag-7-wrapped bytes fails with "unexpected tag (7)". -/
theorem c4_tag42_wraps_only_link (b : List Nat) :
    deserialize_any (.tagged 42 (.bytes b)) = .ok (.link b) ∧
    (∀ v, ¬deserialize_any (.tagged 42 (.bytes b)) = .ok (.bytes v)) ∧
    deserialize_any (.tagged 7 (.bytes b)) = .error "unexpected tag (7)" := by
  refine ⟨rfl, ?_, rfl⟩
  intro v h
  rw [show deserialize_any (.tagged 42 (.bytes b)) = .ok (.link b) from rfl] at h
  simp at h

/-- C4 witness: the three conjuncts at the concrete bytes 7 8 9. -/
theorem c4_tag42_wraps_only_link_witness :
    deserialize_any (.tagged 42 (.bytes [7, 8, 9])) = .ok (.link [7, 8, 9]) ∧
    ¬deserialize_any (.tagged 42 (.bytes [7, 8, 9])) = .ok (.bytes [7, 8, 9]) ∧
    deserialize_any (.tagged 7 (.bytes [7, 8, 9])) = .error "unexpected tag (7)" := by
  have h := c4_tag42_wraps_only_link [7, 8, 9]
  exact ⟨h.1, h.2.1 [7, 8, 9], h.2.2⟩

/-- C6: the unsigned 64-bit, signed 64-bit and signed 128-bit integer decode
events each produce an Integer value numerically equal to the input, with no
truncation. -/
theorem c6_integer_widening (u : Nat) (i j : Int) (_hu : u < 2 ^ 64)
    (_hi : -(2 ^ 63) ≤ i ∧ i < 2 ^ 63) (_hj : -(2 ^ 127) ≤ j ∧ j < 2 ^ 127) :
    visit_u64 u = .ok (.integer (u : Int)) ∧
    visit_i64 i = .ok (.integer i) ∧
    visit_i128 j = .ok (.integer j) :=
  ⟨rfl, rfl, rfl⟩

/-- C6 witness: the maximal unsigned 64-bit value, the minimal signed 64-bit
value and a 128-bit value outside 64-bit range are all represented exactly. -/
theorem c6_integer_widening_witness :
    visit_u64 (2 ^ 64 - 1) = .ok (.integer ((2 : Int) ^ 64 - 1)) ∧
    visit_i64 (-(2 ^ 63)) = .ok (.integer (-(2 ^ 63))) ∧
    visit_i128 (2 ^ 100) = .ok (.integer (2 ^ 100)) ∧
    (2 : Int) ^ 64 ≤ 2 ^ 100 := by
  have h := c6_integer_widening (2 ^ 64 - 1) (-(2 ^ 63)) (2 ^ 100)
    (by norm_num) ⟨by norm_num, by norm_num⟩ ⟨by norm_num, by norm_num⟩
  refine ⟨?_, h.2.1, h.2.2, by norm_num⟩
  have h1 := h.1
  have : ((2 ^ 64 - 1 : Nat) : Int) = (2 : Int) ^ 64 - 1 := by norm_num
  rw [this] at h1
  exact h1

/-- C8: encoding the link wrapper around any byte sequence produces the wire
form tag 42 over that byte string as one tagged unit, decoding that wire form
yields the same wrapper back, and concretely the link over bytes 7 8 9 encodes
to tag 42 over the length-3 byte string 7 8 9. -/
theorem c8_cid_encode_roundtrip (b : List Nat) :
    Cid.serialize ⟨b⟩ = .tagged 42 (.bytes b) ∧
    Cid.deserialize (Cid.serialize ⟨b⟩) = .ok ⟨b⟩ ∧
    Cid.serialize ⟨[7, 8, 9]⟩ = .tagged 42 (.bytes [7, 8, 9]) :=
  ⟨rfl, rfl, rfl⟩

/-- C9: decoding an empty sequence yields an empty List, decoding an empty map
yields an empty Map, and both re-encode to the empty-container wire forms. -/
theorem c9_empty_containers :
    deserialize_any (.array []) = .ok (.list []) ∧
    deserialize_any (.map []) = .ok (.map []) ∧
    encode (.list []) = some (.array []) ∧
    encode (.map []) = some (.map []) :=
  ⟨rfl, rfl, rfl, rfl⟩

/-- C10: the two Cid deserialization implementations, the library's explicit
match on the observed tag and the demo program's unwrap_if_tag-based one, are
behaviorally equivalent: they accept exactly the same inputs with the same
resulting Cid, and reject exactly the same inputs. -/
theorem c10_cid_impls_equivalent (w : Cbor) :
    (∀ c : Cid, Cid.deserialize w = .ok c ↔ cidDeserializeMain w = .ok c) ∧
    ((∃ e, Cid.deserialize w = .error e) ↔ ∃ e, cidDeserializeMain w = .error e) := by
  have key : Cid.deserialize w = cidDeserializeMain w := by
    unfold Cid.deserialize cidDeserializeMain
    cases h : taggedByteBuf w none with
    | error e => rfl
    | ok tv =>
        obtain ⟨t, b⟩ := tv
        cases t with
        | none => rfl
        | some n =>
            by_cases hn : n = 42
            · subst hn; rfl
            · split <;> simp_all [unwrap_if_tag]
  rw [key]
  exact ⟨fun _ => Iff.rfl, Iff.rfl⟩

/-- C3: for every well-formed Value containing none of the fuzzy wire
characteristics (the float cases the encoder leaves unmodelled), decoding
the encoding of the value yields the value back. -/
theorem c3_value_roundtrip (v : Ipld) (hwf : wellFormed v = true) (w : Cbor)
    (h : encode v = some w) : deserialize_any w = .ok v :=
  decode_encode v hwf w h

/-- C3 witness: the concrete record map with a text field and a link field
encodes and decodes back to itself. -/
theorem c3_value_roundtrip_witness :
    wellFormed (.map [("details", .link [7, 8, 9]), ("name", .string "Hello World!")]) = true ∧
    encode (.map [("details", .link [7, 8, 9]), ("name", .string "Hello World!")]) =
      some (.map [(.text "details", .tagged 42 (.bytes [7, 8, 9])),
        (.text "name", .text "Hello World!")]) ∧
    deserialize_any (.map [(.text "details", .tagged 42 (.bytes [7, 8, 9])),
        (.text "name", .text "Hello World!")]) =
      .ok (.map [("details", .link [7, 8, 9]), ("name", .string "Hello World!")]) := by
  refine ⟨by decide, rfl, ?_⟩
  exact c3_value_roundtrip
    (.map [("details", .link [7, 8, 9]), ("name", .string "Hello World!")])
    (by decide)
    (.map [(.text "details", .tagged 42 (.bytes [7, 8, 9])),
      (.text "name", .text "Hello World!")])
    rfl

/-- C5 (amended): every decode failure is a single terminal error for the
whole decode; outside a tag-42 payload, errors — engine errors included —
propagate through container decoding unchanged, and every error of a decode
is either one of the dispatcher's own tag-policy errors or the engine's own
error passed through; but inside a tag-42 payload, any nested failure,
engine errors included, is caught and replaced by the dispatcher's own
"bytes expected" error instead of being propagated as-is. -/
theorem c5_error_policy_amended :
    (∀ payload e, deserialize_any payload = .error e →
      visit_newtype_struct (some 42) payload = .error "bytes expected") ∧
    (∀ w e, deserialize_any w = .error e →
      e = "bytes expected" ∨ (∃ t : Nat, e = "unexpected tag (" ++ toString t ++ ")") ∨
        e = engineKeyError) ∧
    (∀ x xs e, deserialize_any x = .error e → deserialize_any (.array (x :: xs)) = .error e) ∧
    (∀ kw vw rest e, decodeKey kw = .error e →
      deserialize_any (.map ((kw, vw) :: rest)) = .error e) := by
  refine ⟨fun p e h => visit_newtype_42_swallows p e h,
    fun w e h => deserialize_any_error_set w e h, ?_, ?_⟩
  · intro x xs e h
    have hs : seqLoop (x :: xs) = .error e := by
      unfold seqLoop
      rw [h]
    unfold deserialize_any
    rw [hs]
  · intro kw vw rest e h
    have hs : mapLoop ((kw, vw) :: rest) [] = .error e := by
      unfold mapLoop
      rw [h]
    unfold deserialize_any
    rw [hs]

/-- C5 witness: the amended statement applied at concrete failing inputs. -/
theorem c5_error_policy_amended_witness :
    visit_newtype_struct (some 42) (.tagged 7 .null) = .error "bytes expected" ∧
    ("unexpected tag (7)" = "bytes expected" ∨
      (∃ t : Nat, "unexpected tag (7)" = "unexpected tag (" ++ toString t ++ ")") ∨
      "unexpected tag (7)" = engineKeyError) ∧
    deserialize_any (.array [.tagged 7 .null]) = .error "unexpected tag (7)" ∧
    deserialize_any (.map [(.uint 1, .null)]) = .error engineKeyError := by
  have h := c5_error_policy_amended
  exact ⟨h.1 (.tagged 7 .null) "unexpected tag (7)" rfl,
    h.2.1 (.tagged 7 .null) "unexpected tag (7)" rfl,
    h.2.2.1 (.tagged 7 .null) [] "unexpected tag (7)" rfl,
    h.2.2.2 (.uint 1) .null [] engineKeyError rfl⟩

/-- C5 counterexample: at the concrete input "tag 42 wrapping a map whose key
is the integer 1", the nested decode fails with the engine's own key error,
yet the whole decode returns the dispatcher's "bytes expected" — the engine
error was caught and suppressed rather than propagated as-is, contradicting
the claim as stated. -/
theorem c5_engine_error_suppressed :
    deserialize_any (.map [(.uint 1, .null)]) = .error engineKeyError ∧
    deserialize_any (.tagged 42 (.map [(.uint 1, .null)])) = .error "bytes expected" ∧
    ¬("bytes expected" = engineKeyError) := by
  refine ⟨rfl, rfl, by decide⟩

/-- C7: every successfully decoded map iterates in the natural sort order of
its text keys regardless of wire insertion order, and its lookups agree with
the last wire occurrence of each key (last write wins). -/
theorem c7_map_sorted_last_wins (es : List (Cbor × Cbor)) (m : List (String × Ipld))
    (h : deserialize_any (.map es) = .ok (.map m)) :
    sortedEntries m = true ∧
    ∃ ps, decodedPairs es = .ok ps ∧ ∀ k, lookupAssoc k m = lookupAssoc k ps.reverse := by
  have hm : mapLoop es [] = .ok m := by
    unfold deserialize_any at h
    cases hs : mapLoop es [] with
    | ok values =>
        rw [hs] at h
        simp at h
        rw [h]
    | error e => rw [hs] at h; simp at h
  rw [mapLoop_spec es []] at hm
  cases hd : decodedPairs es with
  | error e => rw [hd] at hm; simp at hm
  | ok ps =>
      rw [hd] at hm
      simp at hm
      refine ⟨?_, ps, rfl, ?_⟩
      · rw [← hm]
        exact sortedEntries_insertAll ps [] rfl
      · intro k
        rw [← hm, lookupAssoc_insertAll]
        cases hr : lookupAssoc k ps.reverse <;> simp [optFirst, lookupAssoc]

/-- C7 witness: wire key order b, a, c decodes to iteration order a, b, c, and
a duplicated key keeps only its last value. -/
theorem c7_map_sorted_last_wins_witness :
    deserialize_any (.map [(.text "b", .uint 1), (.text "a", .uint 2), (.text "c", .uint 3)]) =
      .ok (.map [("a", .integer 2), ("b", .integer 1), ("c", .integer 3)]) ∧
    sortedEntries [("a", .integer 2), ("b", .integer 1), ("c", .integer 3)] = true ∧
    deserialize_any (.map [(.text "a", .uint 5), (.text "a", .uint 6)]) =
      .ok (.map [("a", .integer 6)]) := by
  refine ⟨rfl, ?_, rfl⟩
  exact (c7_map_sorted_last_wins
    [(.text "b", .uint 1), (.text "a", .uint 2), (.text "c", .uint 3)]
    [("a", .integer 2), ("b", .integer 1), ("c", .integer 3)] rfl).1
